import Mathlib

/-!
Verification of the `query` package (adamkeys/query): a Go library that turns a
declaratively described row shape into a SQL SELECT statement, executes it, and
hydrates the flat result rows back into a possibly nested object graph.

The development shallowly embeds the package's core:
  * the naming convention (`naming.go`: `underscore`, `standardNamer`),
  * the statement tree and SQL renderer (`sql.go`: `statement`, `SQL`,
    `writeColumns`, `writeJoin`, `writeConditions`, `writeGroup`, `writeOrder`),
  * the schema walker (`query.go`: `prepare`, `prepareNestedSet`, `hasMany`),
  * the execution flow of `All` and `One` with a model of Go error values,
  * the row hydrator (`query.go`: the completion closures built by
    `prepareNestedSet`, `rowRef.Hash`, dedup by identity chains).

Go machine integers never overflow in the modelled code paths (they are only
used as list indices and loop counters), so they are modelled as `Nat`.
-/

/-! ## Go error values

Model of Go `error` values as produced by `fmt.Errorf`.  A format verb `%w`
produces an error that wraps its cause (recoverable via `errors.Unwrap` /
`errors.Is`); `%v` flattens the cause into the message text, producing a plain
leaf error.  This mirrors the documented `fmt`/`errors` behaviour of the Go
standard library, which `query.go` calls with both verbs
(`fmt.Errorf("query: %v", err)`, `fmt.Errorf("scan: %w", err)`,
`fmt.Errorf("close: %w", err)`). -/

inductive GoErr where
  /-- A leaf error: `errors.New` / `fmt.Errorf` without `%w`. -/
  | base (msg : String)
  /-- An error produced by `fmt.Errorf` with `%w`: carries its full message
  text and wraps the cause. -/
  | wrapped (msg : String) (cause : GoErr)
deriving DecidableEq, Repr

/-- The `Error()` message of a Go error value. -/
def GoErr.message : GoErr → String
  | .base m => m
  | .wrapped m _ => m

/-- `errors.Unwrap`: only `%w`-wrapped errors expose a cause. -/
def GoErr.unwrap : GoErr → Option GoErr
  | .base _ => none
  | .wrapped _ c => some c

/-- `errors.Is(err, target)` restricted to value-comparable errors: walks the
unwrap chain comparing each error to the target. -/
def errorsIs : GoErr → GoErr → Bool
  | .base m, target => GoErr.base m == target
  | .wrapped m c, target => GoErr.wrapped m c == target || errorsIs c target

/-- `sql.ErrNoRows` from `database/sql`: the distinguished not-found error
returned by single-row queries that match no rows. -/
def errNoRows : GoErr := .base "sql: no rows in result set"

/-! ## Naming (`naming.go`)

`underscore` converts a Go identifier to snake case by applying two regexp
replacements and lowercasing:

    matchFirst     = "(.)([A-Z][a-z]+)"  -> "${1}_${2}"
    matchRemaining = "([a-z0-9])([A-Z])" -> "${1}_${2}"

Both replacements are hand-compiled to one-character-per-step scans below so
that the definitions are structurally recursive (and therefore evaluable by
the kernel).  Go's `ReplaceAllString` scans left to right and replaces
non-overlapping matches, resuming after the end of each match; `[a-z]+` is
greedy.  Identifier characters are ASCII, for which Go's `ToLower` agrees with
`Char.toLower`. -/

def isUpperAZ (c : Char) : Bool := 'A' ≤ c && c ≤ 'Z'

def isLowerAZ (c : Char) : Bool := 'a' ≤ c && c ≤ 'z'

def isDigit09 (c : Char) : Bool := '0' ≤ c && c ≤ '9'

/-- Scanner state for the `matchFirst` replacement.  `free`: the head
character may start a match (it would be the `(.)` group).  `upperHead`: the
head character is the `[A-Z]` of a match already begun (the `_` has been
emitted before it).  `run`: the head is inside the greedy `[a-z]+` run of the
current match. -/
inductive MFState where
  | free
  | upperHead
  | run

/-- One pass of `matchFirst.ReplaceAllString(s, "${1}_${2}")`.  A match needs
a character, an upper-case letter and at least one lower-case letter; the
underscore goes between the first two.  The scan never backtracks: the
characters of a match cannot start another match, and the first character
after a match can. -/
def mfGo : MFState → List Char → List Char
  | _, [] => []
  | .free, c :: rest =>
    match rest with
    | u :: l :: _ =>
      if isUpperAZ u && isLowerAZ l then c :: '_' :: mfGo .upperHead rest
      else c :: mfGo .free rest
    | _ => c :: mfGo .free rest
  | .upperHead, u :: rest => u :: mfGo .run rest
  | .run, x :: rest =>
    if isLowerAZ x then x :: mfGo .run rest
    else
      match rest with
      | u :: l :: _ =>
        if isUpperAZ u && isLowerAZ l then x :: '_' :: mfGo .upperHead rest
        else x :: mfGo .free rest
      | _ => x :: mfGo .free rest

/-- The `matchRemaining` replacement: an underscore between every
`[a-z0-9]` immediately followed by `[A-Z]`; matches do not overlap, so the
scan resumes after the matched pair. -/
def mrGo : List Char → List Char
  | [] => []
  | [c] => [c]
  | c :: d :: rest =>
    if (isLowerAZ c || isDigit09 c) && isUpperAZ d then c :: '_' :: d :: mrGo rest
    else c :: mrGo (d :: rest)

/-- `underscore` from `naming.go`: snake-case conversion. -/
def underscore (str : String) : String :=
  String.mk ((mrGo (mfGo .free str.data)).map Char.toLower)

/-- The `Namer` interface (`naming.go`): name-derivation functions for the
identity column, the table and a column, each from an element name. -/
structure Namer where
  identName : String → String
  tableName : String → String
  columnName : String → String

/-- `standardNamer` / `defaultNamer` from `naming.go`: the identity column is
always `"id"`; table and column names are the underscored element name. -/
def standardNamer : Namer :=
  { identName := fun _ => "id", tableName := underscore, columnName := underscore }

/-! ## Statements (`sql.go`) -/

/-- A binding slot: the destination cell a scanned column is stored into.
`field p` is the storage of the struct field at index path `p` (indices from
the root shape); `identSlot p` is the synthesized identity binding that
`prepareNestedSet` prepends for the has-many field at path `p`. -/
inductive Slot where
  | field (path : List Nat)
  | identSlot (path : List Nat)
deriving DecidableEq, Repr

/-- A select column (`column` in `sql.go`): expression text and a flag asking
the renderer to qualify it with the current table.  `asName` is the `as`
alias field that `prepareNestedSet` in `query.go` sets on the synthesized
identity column; the copy of `sql.go` in this tree predates that field, so
its rendering (an ` AS ` suffix) is modelled from the spec, which calls the
synthesized dedup aliases caller-invisible.  `slot` is verification
instrumentation only: it records which binding slot the column was generated
for, is not part of the Go struct, and is ignored by the renderer. -/
structure Column where
  name : String
  asName : String
  useTable : Bool
  slot : Slot
deriving DecidableEq, Repr

/-- The join kinds of `sql.go`. -/
inductive JoinKind where
  | noJoin
  | inner
  | left
deriving DecidableEq, Repr

/-- `statement` from `sql.go`: the properties of a query.  A recursive
inductive because `joins` nests statements. -/
inductive Stmt where
  | mk (columns : List Column) (table : String) (conditions : List String)
      (order : List String) (group : List String) (limit : String)
      (offset : String) (join : JoinKind) (onPred : String) (joins : List Stmt)

def Stmt.columns : Stmt → List Column | .mk v _ _ _ _ _ _ _ _ _ => v
def Stmt.table : Stmt → String | .mk _ v _ _ _ _ _ _ _ _ => v
def Stmt.conditions : Stmt → List String | .mk _ _ v _ _ _ _ _ _ _ => v
def Stmt.order : Stmt → List String | .mk _ _ _ v _ _ _ _ _ _ => v
def Stmt.group : Stmt → List String | .mk _ _ _ _ v _ _ _ _ _ => v
def Stmt.limit : Stmt → String | .mk _ _ _ _ _ v _ _ _ _ => v
def Stmt.offset : Stmt → String | .mk _ _ _ _ _ _ v _ _ _ => v
def Stmt.join : Stmt → JoinKind | .mk _ _ _ _ _ _ _ v _ _ => v
def Stmt.onPred : Stmt → String | .mk _ _ _ _ _ _ _ _ v _ => v
def Stmt.joins : Stmt → List Stmt | .mk _ _ _ _ _ _ _ _ _ v => v

/-- The zero `statement` value. -/
def emptyStmt : Stmt := .mk [] "" [] [] [] "" "" .noJoin "" []

def Stmt.withColumns : Stmt → List Column → Stmt
  | .mk _ t c o g l f j p js, v => .mk v t c o g l f j p js
def Stmt.withTable : Stmt → String → Stmt
  | .mk cs _ c o g l f j p js, v => .mk cs v c o g l f j p js
def Stmt.withConditions : Stmt → List String → Stmt
  | .mk cs t _ o g l f j p js, v => .mk cs t v o g l f j p js
def Stmt.withOrder : Stmt → List String → Stmt
  | .mk cs t c _ g l f j p js, v => .mk cs t c v g l f j p js
def Stmt.withGroup : Stmt → List String → Stmt
  | .mk cs t c o _ l f j p js, v => .mk cs t c o v l f j p js
def Stmt.withLimit : Stmt → String → Stmt
  | .mk cs t c o g _ f j p js, v => .mk cs t c o g v f j p js
def Stmt.withOffset : Stmt → String → Stmt
  | .mk cs t c o g l _ j p js, v => .mk cs t c o g l v j p js
def Stmt.withJoin : Stmt → JoinKind → Stmt
  | .mk cs t c o g l f _ p js, v => .mk cs t c o g l f v p js
def Stmt.withOnPred : Stmt → String → Stmt
  | .mk cs t c o g l f j _ js, v => .mk cs t c o g l f j v js
def Stmt.withJoins : Stmt → List Stmt → Stmt
  | .mk cs t c o g l f j p _, v => .mk cs t c o g l f j p v

/-! ## The renderer (`sql.go`) -/

/-- Text of one select column as written by `writeColumns`: optional
`table.` qualifier, the column expression, and the alias suffix for
synthesized identity columns (see `Column.asName`). -/
def colText (table : String) (c : Column) : String :=
  (if c.useTable then table ++ "." else "") ++ c.name ++
    (if c.asName = "" then "" else " AS " ++ c.asName)

/-- The loop over a statement's own columns inside `writeColumns`: `i` counts
columns written so far across the whole query and decides the `", "`
separator. -/
def writeColumnsOwn (table : String) : List Column → Nat → String
  | [], _ => ""
  | c :: cs, i =>
    (if i > 0 then ", " else "") ++ colText table c ++ writeColumnsOwn table cs (i + 1)

mutual
/-- `statement.writeColumns`: this statement's columns, then each child
join's columns.  As in the Go code, the counter passed to every child join is
the value after this statement's own loop; it is not advanced between sibling
joins. -/
def writeColumns : Stmt → Nat → String
  | .mk cs t _ _ _ _ _ _ _ js, i =>
    writeColumnsOwn t cs i ++ writeColumnsJoins js (i + cs.length)

def writeColumnsJoins : List Stmt → Nat → String
  | [], _ => ""
  | j :: rest, i => writeColumns j i ++ writeColumnsJoins rest i
end

mutual
/-- `statement.writeJoin`: nothing for `joinNone`, otherwise the join
keyword, table and predicate, followed immediately by the join's own nested
joins. -/
def writeJoin : Stmt → String
  | .mk _ t _ _ _ _ _ j p js =>
    match j with
    | .noJoin => ""
    | .inner => " INNER JOIN " ++ t ++ " ON " ++ p ++ writeJoinList js
    | .left => " LEFT JOIN " ++ t ++ " ON " ++ p ++ writeJoinList js

def writeJoinList : List Stmt → String
  | [] => ""
  | j :: rest => writeJoin j ++ writeJoinList rest
end

mutual
/-- `statement.hasConditions`: true when this statement or any nested join
carries a condition. -/
def hasConditions : Stmt → Bool
  | .mk _ _ cond _ _ _ _ _ _ js => hasConditionsJoins js || cond.length > 0

def hasConditionsJoins : List Stmt → Bool
  | [] => false
  | j :: rest => hasConditions j || hasConditionsJoins rest
end

/-- The loop over a statement's own conditions inside `writeConditions`: the
` AND ` separator depends only on the index within this statement's own list
(as in the Go code, which receives but never reads `depth`). -/
def writeConditionsOwn : List String → Nat → String
  | [], _ => ""
  | c :: cs, i =>
    (if i > 0 then " AND " else "") ++ "(" ++ c ++ ")" ++ writeConditionsOwn cs (i + 1)

mutual
/-- `statement.writeConditions`: own conditions, then each join's, gathered
depth-first. -/
def writeConditions : Stmt → Nat → String
  | .mk _ _ cond _ _ _ _ _ _ js, depth =>
    writeConditionsOwn cond 0 ++ writeConditionsJoins js (depth + 1)

def writeConditionsJoins : List Stmt → Nat → String
  | [], _ => ""
  | j :: rest, depth => writeConditions j depth ++ writeConditionsJoins rest depth
end

mutual
/-- `statement.hasGroup`. -/
def hasGroup : Stmt → Bool
  | .mk _ _ _ _ grp _ _ _ _ js => hasGroupJoins js || grp.length > 0

def hasGroupJoins : List Stmt → Bool
  | [] => false
  | j :: rest => hasGroup j || hasGroupJoins rest
end

/-- The loop over a statement's own group expressions inside `writeGroup`:
the `", "` separator fires when the own index plus the depth is positive. -/
def writeGroupOwn (depth : Nat) : List String → Nat → String
  | [], _ => ""
  | g :: gs, i =>
    (if i + depth > 0 then ", " else "") ++ g ++ writeGroupOwn depth gs (i + 1)

mutual
/-- `statement.writeGroup`. -/
def writeGroup : Stmt → Nat → String
  | .mk _ _ _ _ grp _ _ _ _ js, depth =>
    writeGroupOwn depth grp 0 ++ writeGroupJoins js (depth + 1)

def writeGroupJoins : List Stmt → Nat → String
  | [], _ => ""
  | j :: rest, depth => writeGroup j depth ++ writeGroupJoins rest depth
end

mutual
/-- `statement.hasOrder`. -/
def hasOrder : Stmt → Bool
  | .mk _ _ _ ord _ _ _ _ _ js => hasOrderJoins js || ord.length > 0

def hasOrderJoins : List Stmt → Bool
  | [] => false
  | j :: rest => hasOrder j || hasOrderJoins rest
end

/-- The loop over a statement's own order expressions inside `writeOrder`. -/
def writeOrderOwn (depth : Nat) : List String → Nat → String
  | [], _ => ""
  | o :: os, i =>
    (if i + depth > 0 then ", " else "") ++ o ++ writeOrderOwn depth os (i + 1)

mutual
/-- `statement.writeOrder`. -/
def writeOrder : Stmt → Nat → String
  | .mk _ _ _ ord _ _ _ _ _ js, depth =>
    writeOrderOwn depth ord 0 ++ writeOrderJoins js (depth + 1)

def writeOrderJoins : List Stmt → Nat → String
  | [], _ => ""
  | j :: rest, depth => writeOrder j depth ++ writeOrderJoins rest depth
end

/-- `statement.SQL`: the rendered query. -/
def Stmt.SQL (s : Stmt) : String :=
  "SELECT " ++ writeColumns s 0 ++ " FROM " ++ s.table ++
    writeJoinList s.joins ++
    (if hasConditions s then " WHERE " ++ writeConditions s 0 else "") ++
    (if hasGroup s then " GROUP BY " ++ writeGroup s 0 else "") ++
    (if hasOrder s then " ORDER BY " ++ writeOrder s 0 else "") ++
    (if s.limit = "" then "" else " LIMIT " ++ s.limit) ++
    (if s.offset = "" then "" else " OFFSET " ++ s.offset)

/-! ## Row shapes and the schema walker (`query.go`, `prepare`)

A `Fld` is one field descriptor of a row shape, mirroring the cases of the
`switch` in `prepare`: the marker struct types of `props.go`, a scalar column
field (`tag = ""` means no `q` struct tag, so the column name is derived and
table-qualified), a slice field (has-many join), an unnamed-struct field
(single join) and an anonymous embedded shape.  `tyName` on a slice join is
the name of the slice's element type (`""` for an anonymous element struct);
it feeds the depth-0 table default applied inside `prepareNestedSet`'s call
to `prepare`. -/

inductive Fld where
  | tableMarker (tag : String)
  | conditionsMarker (tag : String)
  | orderByMarker (tag : String)
  | groupByMarker (tag : String)
  | leftJoinMarker
  | limitMarker (tag : String)
  | offsetMarker (tag : String)
  | scalar (name tag : String)
  | sliceJoin (name tyName tag : String) (sub : List Fld)
  | structJoin (name tag : String) (sub : List Fld)
  | embedded (name : String) (sub : List Fld)

mutual
/-- One iteration of the field loop of `prepare` in `query.go`: the switch
over the field's kind.  `path` locates the current struct's fields (binding
slots) from the root shape; `i` is the loop index; `st` and `bs` are the
statement and bindings accumulated so far.  A missing join tag panics in Go
(`%T.%s requires a struct tag describing the join conditions`); the panic is
modelled as the error branch of `Except`.  The slice case inlines
`prepareNestedSet`: prepare the element shape at depth 0 (so an element type
name, when there is one, becomes the table default), then prepend the
synthesized identity column and binding.  The random `ident%d` alias is
modelled by the fixed text `"ident"`; the spec keeps these synthesized
aliases caller-invisible, and no modelled property depends on the alias
text. -/
def prepareFld (nm : Namer) : Fld → List Nat → Nat → Stmt → List Slot →
    Except String (Stmt × List Slot)
  | .tableMarker tag, _, _, st, bs => .ok (st.withTable tag, bs)
  | .conditionsMarker tag, _, _, st, bs =>
    .ok (st.withConditions (st.conditions ++ [tag]), bs)
  | .orderByMarker tag, _, _, st, bs => .ok (st.withOrder (st.order ++ [tag]), bs)
  | .groupByMarker tag, _, _, st, bs => .ok (st.withGroup (st.group ++ [tag]), bs)
  | .leftJoinMarker, _, _, st, bs => .ok (st.withJoin .left, bs)
  | .limitMarker tag, _, _, st, bs => .ok (st.withLimit tag, bs)
  | .offsetMarker tag, _, _, st, bs => .ok (st.withOffset tag, bs)
  | .sliceJoin name tyName tag sub, path, i, st, bs =>
    if tag = "" then .error (name ++ " requires a struct tag describing the join conditions")
    else
      match prepareFlds nm sub (path ++ [i]) 0 emptyStmt [] with
      | .error e => .error e
      | .ok (s0, b0) =>
        let s1 := if s0.table = "" then s0.withTable (nm.tableName tyName) else s0
        let s2 := s1.withColumns
          ({ name := nm.identName "", asName := "ident", useTable := true,
             slot := .identSlot (path ++ [i]) } :: s1.columns)
        let b2 := Slot.identSlot (path ++ [i]) :: b0
        let s3 := if s2.table = "" then s2.withTable (nm.tableName name) else s2
        let s4 := if s3.join = .noJoin then s3.withJoin .inner else s3
        .ok (st.withJoins (st.joins ++ [s4.withOnPred tag]), bs ++ b2)
  | .structJoin name tag sub, path, i, st, bs =>
    if tag = "" then .error (name ++ " requires a struct tag describing the join conditions")
    else
      match prepareFlds nm sub (path ++ [i]) 0 emptyStmt [] with
      | .error e => .error e
      | .ok (s0, b0) =>
        let s1 := if s0.table = "" then s0.withTable (nm.tableName name) else s0
        let s2 := if s1.join = .noJoin then s1.withJoin .inner else s1
        .ok (st.withJoins (st.joins ++ [s2.withOnPred tag]), bs ++ b0)
  | .embedded _ sub, path, i, st, bs =>
    match prepareFlds nm sub (path ++ [i]) 0 emptyStmt [] with
    | .error e => .error e
    | .ok (s0, b0) =>
      let st2 := ((((((if st.table = "" then st.withTable s0.table else st).withColumns
        (s0.columns ++ st.columns)).withConditions
        (s0.conditions ++ st.conditions)).withGroup
        (s0.group ++ st.group)).withOrder
        (s0.order ++ st.order)).withJoins
        (s0.joins ++ st.joins))
      .ok (st2, bs ++ b0)
  | .scalar name tag, path, i, st, bs =>
    let col : Column :=
      if tag = "" then
        { name := nm.columnName name, asName := "", useTable := true,
          slot := .field (path ++ [i]) }
      else { name := tag, asName := "", useTable := false, slot := .field (path ++ [i]) }
    .ok (st.withColumns (st.columns ++ [col]), bs ++ [.field (path ++ [i])])

/-- The field loop of `prepare`: fold `prepareFld` over the fields in
declaration order, advancing the loop index. -/
def prepareFlds (nm : Namer) : List Fld → List Nat → Nat → Stmt → List Slot →
    Except String (Stmt × List Slot)
  | [], _, _, st, bs => .ok (st, bs)
  | f :: rest, path, i, st, bs =>
    match prepareFld nm f path i st bs with
    | .error e => .error e
    | .ok (st2, bs2) => prepareFlds nm rest path (i + 1) st2 bs2
end

/-- `prepare` at depth 0 on the root shape: run the field loop on a zero
statement, then default the table to the namer-derived shape type name when
still unset. -/
def prepareRoot (nm : Namer) (tyName : String) (flds : List Fld) :
    Except String (Stmt × List Slot) :=
  match prepareFlds nm flds [] 0 emptyStmt [] with
  | .error e => .error e
  | .ok (st, bs) =>
    .ok ((if st.table = "" then st.withTable (nm.tableName tyName) else st), bs)

mutual
/-- `hasMany` from `query.go` on one field descriptor: a slice field is a
many relationship; struct-typed fields are searched recursively. -/
def Fld.hasManyF : Fld → Bool
  | .sliceJoin _ _ _ _ => true
  | .structJoin _ _ sub => hasManyShape sub
  | .embedded _ sub => hasManyShape sub
  | _ => false

/-- `hasMany` on a struct shape: true when any field produces a many
relationship. -/
def hasManyShape : List Fld → Bool
  | [] => false
  | f :: rest => f.hasManyF || hasManyShape rest
end

mutual
/-- True when a shape contains, anywhere `prepare` will walk, a nested join
field (slice or unnamed struct) whose join-predicate tag is empty. -/
def Fld.untaggedJoinF : Fld → Bool
  | .sliceJoin _ _ tag sub => tag = "" || hasUntaggedJoin sub
  | .structJoin _ tag sub => tag = "" || hasUntaggedJoin sub
  | .embedded _ sub => hasUntaggedJoin sub
  | _ => false

def hasUntaggedJoin : List Fld → Bool
  | [] => false
  | f :: rest => f.untaggedJoinF || hasUntaggedJoin rest
end

mutual
/-- True when neither the shape nor any embedded shape declares a `Table`
marker.  Join fields are not searched: a join's table never leaks into the
enclosing statement. -/
def Fld.noTableF : Fld → Bool
  | .tableMarker _ => false
  | .embedded _ sub => noTableMarkerE sub
  | _ => true

def noTableMarkerE : List Fld → Bool
  | [] => true
  | f :: rest => f.noTableF && noTableMarkerE rest
end

/-- True when the field is a `Table` marker. -/
def Fld.isTableM : Fld → Bool
  | .tableMarker _ => true
  | _ => false

/-- True when the shape's own field list (embedded shapes not searched)
declares no `Table` marker. -/
def noTopTableMarker : List Fld → Bool
  | [] => true
  | f :: rest => !f.isTableM && noTopTableMarker rest

mutual
/-- The columns of a statement tree in the order `writeColumns` writes them:
this statement's own columns, then each child join's columns, depth-first in
declaration order. -/
def emitColumns : Stmt → List Column
  | .mk cs _ _ _ _ _ _ _ _ js => cs ++ emitColumnsJoins js

def emitColumnsJoins : List Stmt → List Column
  | [] => []
  | j :: rest => emitColumns j ++ emitColumnsJoins rest
end

example : underscore "UserProfiles" = "user_profiles" := by decide
example : underscore "BaseUser" = "base_user" := by decide
example : underscore "ID" = "id" := by decide
example : underscore "Addresses" = "addresses" := by decide
example :
    (prepareRoot standardNamer "users"
      [.scalar "ID" "", .scalar "Name" ""]).map (fun pr => pr.1.SQL) =
    .ok "SELECT users.id, users.name FROM users" := rfl

/-! ## Execution flow of `All` and `One` (`query.go`)

The transaction collaborator is external to the package; it is modelled by
the data its two operations hand back.  `queryRows` is the outcome of
`QueryContext`: either a failure or a cursor, the cursor being the list of
rows with each row's scan outcome (a scanned `Src` value or a scan error).
`closeErr` is what `rows.Err()` reports after iteration.  `rowScan` models
`QueryRowContext(...).Scan(bindings...)` for the single-row path of `One`:
the value of the scan destination after the call, paired with the returned
error.  Per the `database/sql` contract a zero-row single-row query leaves
the destination untouched and returns `sql.ErrNoRows`; theorems state that
contract as a hypothesis on `rowScan` rather than baking it in. -/
structure Tx (Src : Type) where
  queryRows : Except GoErr (List (Except GoErr Src))
  closeErr : Option GoErr
  rowScan : Src × Option GoErr

/-- The row loop of `All`: scan each row in order; the first scan failure
aborts with `fmt.Errorf("scan: %w", err)`. -/
def scanAll {Src : Type} : List (Except GoErr Src) → Except GoErr (List Src)
  | [] => .ok []
  | .error e :: _ => .error (.wrapped ("scan: " ++ e.message) e)
  | .ok r :: rest =>
    match scanAll rest with
    | .error e => .error e
    | .ok rs => .ok (r :: rs)

/-- The post-prepare body of `All`: issue the query
(`fmt.Errorf("query: %v", err)` on failure — note `%v`, a flattened message,
not a `%w` wrap), loop the rows through scan, check `rows.Err()`
(`fmt.Errorf("close: %w", err)`), then apply the transform to every
collected result.  The completion callbacks are modelled as collecting each
scanned value in order, which is exact for shapes without a has-many
relationship; the has-many hydrator is modelled separately below.  The
claims proved over this function do not depend on that difference: they
concern the query-failure path and the zero-row path, where no completion
ever runs. -/
def AllExec {Src Dest : Type} (tx : Tx Src) (transform : Src → Dest) :
    Except GoErr (List Dest) :=
  match tx.queryRows with
  | .error err => .error (.base ("query: " ++ err.message))
  | .ok rows =>
    match scanAll rows with
    | .error e => .error e
    | .ok results =>
      match tx.closeErr with
      | some e => .error (.wrapped ("close: " ++ e.message) e)
      | none => .ok (results.map transform)

/-- `All` including statement preparation, with the I/O boundary made
observable: the first component counts the calls made to the transaction's
`QueryContext` (`0` or `1`); a declaration panic from `prepare` is the
`Sum.inl` error, a returned runtime error the `Sum.inr` error.  As in the Go
code, `prepareSet` runs strictly before any transaction call, so a
declaration error leaves the count at `0`. -/
def AllGo {Src Dest : Type} (nm : Namer) (tyName : String) (shape : List Fld)
    (tx : Tx Src) (transform : Src → Dest) :
    Nat × Except (String ⊕ GoErr) (List Dest) :=
  match prepareRoot nm tyName shape with
  | .error msg => (0, .error (.inl msg))
  | .ok _ =>
    (1, match AllExec tx transform with
        | .error e => .error (.inr e)
        | .ok rs => .ok rs)

/-- `One` from `query.go`.  When the shape contains a many relationship the
call delegates to `All` and takes the first result, answering
`sql.ErrNoRows` when `All` produced none.  Otherwise it prepares, runs the
single-row query and returns `transform(src)` together with the scan error —
the transform is applied to the scanned source value even when the scan
failed.  The result pairs the returned destination with an optional error
(`Sum.inl` again marking a declaration panic). -/
def OneGo {Src Dest : Type} [Inhabited Dest] (nm : Namer) (tyName : String)
    (shape : List Fld) (tx : Tx Src) (transform : Src → Dest) :
    Dest × Option (String ⊕ GoErr) :=
  if hasManyShape shape then
    match AllGo nm tyName shape tx transform with
    | (_, .error e) => (default, some e)
    | (_, .ok []) => (default, some (.inr errNoRows))
    | (_, .ok (r :: _)) => (r, none)
  else
    match prepareRoot nm tyName shape with
    | .error msg => (default, some (.inl msg))
    | .ok _ =>
      let s := tx.rowScan
      (transform s.1, s.2.map .inr)

/-! ## The row hydrator (`query.go`, `prepareNestedSet` completions)

`rowRef` chains the identity of the current row element to the identities of
its ancestors; `Hash` walks the chain from the current element to the root,
writing a `.` before each identity. -/

inductive RowRef where
  | mk (parent : Option RowRef) (ident : String)

mutual
/-- `rowRef.Hash` from `query.go`. -/
def RowRef.Hash : RowRef → String
  | .mk p ident => "." ++ ident ++ hashParent p

def hashParent : Option RowRef → String
  | none => ""
  | some r => r.Hash
end

/-! The hydrator is modelled for the canonical has-many shape: a parent
struct with scalar data and one has-many slice of child structs with scalar
data — the shape the completion closures are composed for when `All` runs

    type parent struct {
        PData    string
        Children []struct{ CData string } `q:"..."`
    }

`Row1` is one scanned row of the flattened result set: the synthesized
parent identity binding (`*any`, possibly null), the parent's scalar
column, the synthesized child identity binding, and the child's scalar
column.  Identities are kept as the strings `asString` produces from the
scanned values. -/

structure ChildElem where
  cData : String
deriving DecidableEq, Repr

structure ParentElem where
  pData : String
  children : List ChildElem
deriving DecidableEq, Repr

structure Row1 where
  pIdent : Option String
  pData : String
  cIdent : Option String
  cData : String
deriving DecidableEq, Repr

/-- The hydration state threaded across rows: the top-level result slice and
the two `visited` maps, one per `prepareNestedSet` closure.  Go stores
`reflect.Value` references into the result structures; the model stores the
index of the parent element (and of the child element within it), which
agrees with Go's aliasing for the consecutive-parent row sets considered
here. -/
structure HydState where
  results : List ParentElem
  visitedP : List (String × Nat)
  visitedC : List (String × (Nat × Nat))

/-- Replace the element at an index. -/
def updateAt {α : Type} : List α → Nat → (α → α) → List α
  | [], _, _ => []
  | x :: xs, 0, f => f x :: xs
  | x :: xs, n + 1, f => x :: updateAt xs n f

/-- The completion closure `prepareNestedSet` builds for the child slice
field, called by the parent completion with the parent's `rowRef` and the
parent element the row belongs to (index `pIdx`): a null scanned identity is
no match and is skipped entirely; otherwise the dedup key is the hash of
this identity chained onto the parent's; an unseen key appends the scanned
child value to the parent's slice and records it; a seen key reuses the
recorded element and recurses the completion into its sub-fields — a no-op
here, the child having only scalar fields. -/
def childComplete (refP : RowRef) (pIdx : Nat) (row : Row1) (st : HydState) : HydState :=
  match row.cIdent with
  | none => st
  | some c =>
    let hash := (RowRef.mk (some refP) c).Hash
    match st.visitedC.lookup hash with
    | some _ => st
    | none =>
      { st with
        results := updateAt st.results pIdx
          (fun pe => { pe with children := pe.children ++ [⟨row.cData⟩] }),
        visitedC := (hash, (pIdx, 0)) :: st.visitedC }

/-- The completion closure `prepareNestedSet` builds for the top-level
result slice (parent `rowRef` nil): skip the row when the scanned parent
identity is null; on an unseen identity hash append a copy of the scanned
parent value (its child slice still empty) and record it; either way recurse
the composed `prepare` completion — here the child slice field's completion
— into the found or added element. -/
def parentComplete (row : Row1) (st : HydState) : HydState :=
  match row.pIdent with
  | none => st
  | some p =>
    let refP := RowRef.mk none p
    let hash := refP.Hash
    match st.visitedP.lookup hash with
    | some idx => childComplete refP idx row st
    | none =>
      let idx := st.results.length
      childComplete refP idx row
        { st with
          results := st.results ++ [⟨row.pData, []⟩],
          visitedP := (hash, idx) :: st.visitedP }

/-- The scan loop of `All` for the modelled shape: run the completion once
per scanned row, in row order, starting from the empty result slice and
empty dedup maps. -/
def hydrateModel (rows : List Row1) : HydState :=
  rows.foldl (fun st row => parentComplete row st) ⟨[], [], []⟩

/-- Reference description of the children one parent collects: scan the rows
in order, skip null child identities, keep the first row of each distinct
child identity, drop repeats.  `seen` accumulates the identities already
collected. -/
def dedupChildren (seen : List String) : List Row1 → List ChildElem
  | [] => []
  | r :: rest =>
    match r.cIdent with
    | none => dedupChildren seen rest
    | some c =>
      if c ∈ seen then dedupChildren seen rest
      else ⟨r.cData⟩ :: dedupChildren (c :: seen) rest

/-! ## Supporting lemmas -/

/-- Prefixing a string with `"query: "` changes it. -/
theorem query_prefix_ne (m : String) : "query: " ++ m ≠ m := by
  intro h
  have hl := congrArg String.length h
  rw [String.length_append] at hl
  have h7 : ("query: " : String).length = 7 := rfl
  omega

mutual
/-- A field containing an untagged join makes `prepareFld` fail, whatever
has been accumulated. -/
theorem prepareFld_untagged_err (nm : Namer) (f : Fld) (h : f.untaggedJoinF = true)
    (path : List Nat) (i : Nat) (st : Stmt) (bs : List Slot) :
    ∃ e, prepareFld nm f path i st bs = .error e := by
  cases f with
  | sliceJoin name tyName tag sub =>
    rw [Fld.untaggedJoinF] at h
    by_cases htag : tag = ""
    · exact ⟨name ++ " requires a struct tag describing the join conditions",
        by simp [prepareFld, htag]⟩
    · simp [htag] at h
      obtain ⟨e, he⟩ := prepareFlds_untagged_err nm sub h (path ++ [i]) 0 emptyStmt []
      exact ⟨e, by simp [prepareFld, htag, he]⟩
  | structJoin name tag sub =>
    rw [Fld.untaggedJoinF] at h
    by_cases htag : tag = ""
    · exact ⟨name ++ " requires a struct tag describing the join conditions",
        by simp [prepareFld, htag]⟩
    · simp [htag] at h
      obtain ⟨e, he⟩ := prepareFlds_untagged_err nm sub h (path ++ [i]) 0 emptyStmt []
      exact ⟨e, by simp [prepareFld, htag, he]⟩
  | embedded name sub =>
    rw [Fld.untaggedJoinF] at h
    obtain ⟨e, he⟩ := prepareFlds_untagged_err nm sub h (path ++ [i]) 0 emptyStmt []
    exact ⟨e, by simp [prepareFld, he]⟩
  | tableMarker tag => simp [Fld.untaggedJoinF] at h
  | conditionsMarker tag => simp [Fld.untaggedJoinF] at h
  | orderByMarker tag => simp [Fld.untaggedJoinF] at h
  | groupByMarker tag => simp [Fld.untaggedJoinF] at h
  | leftJoinMarker => simp [Fld.untaggedJoinF] at h
  | limitMarker tag => simp [Fld.untaggedJoinF] at h
  | offsetMarker tag => simp [Fld.untaggedJoinF] at h
  | scalar name tag => simp [Fld.untaggedJoinF] at h

/-- A shape containing an untagged join makes the field loop fail. -/
theorem prepareFlds_untagged_err (nm : Namer) (flds : List Fld)
    (h : hasUntaggedJoin flds = true) (path : List Nat) (i : Nat) (st : Stmt)
    (bs : List Slot) : ∃ e, prepareFlds nm flds path i st bs = .error e := by
  cases flds with
  | nil => simp [hasUntaggedJoin] at h
  | cons f rest =>
    rw [hasUntaggedJoin] at h
    by_cases hf : f.untaggedJoinF = true
    · obtain ⟨e, he⟩ := prepareFld_untagged_err nm f hf path i st bs
      exact ⟨e, by simp [prepareFlds, he]⟩
    · simp [hf] at h
      cases hr : prepareFld nm f path i st bs with
      | error e => exact ⟨e, by simp [prepareFlds, hr]⟩
      | ok acc =>
        obtain ⟨e, he⟩ := prepareFlds_untagged_err nm rest h path (i + 1) acc.1 acc.2
        exact ⟨e, by simp [prepareFlds, hr, he]⟩
end

/-! ## Concrete fixtures used by witnesses -/

/-- A shape with a scalar field declared after a nested-join field. -/
def shapeScalarAfterJoin : List Fld :=
  [Fld.scalar "ID" "",
   Fld.structJoin "Addresses" "users.address_id = addresses.id" [Fld.scalar "City" ""],
   Fld.scalar "Name" ""]

/-- A has-many shape: a user with a slice of addresses. -/
def shapeUsersMany : List Fld :=
  [Fld.scalar "Name" "",
   Fld.sliceJoin "Addresses" "" "users.address_id = addresses.id" [Fld.scalar "City" ""]]

/-- A plain scalar shape. -/
def shapeUsersPlain : List Fld := [Fld.scalar "Name" ""]

/-- A transaction whose query matches zero rows, with the `database/sql`
single-row contract: `Scan` leaves the destination untouched and returns
`sql.ErrNoRows`. -/
def txZeroRows : Tx String :=
  { queryRows := .ok [], closeErr := none, rowScan := ("", some errNoRows) }

/-- A transaction whose `QueryContext` fails outright. -/
def txQueryBoom : Tx String :=
  { queryRows := .error (.base "boom"), closeErr := none, rowScan := ("", none) }

/-- A transaction whose single-row scan fails after partially populating the
destination. -/
def txScanFails : Tx String :=
  { queryRows := .ok [], closeErr := none,
    rowScan := ("partial", some (.base "unsupported Scan")) }

/-! ## Claims -/

/-- C2: the spec's invariant — the sequence of SELECT columns emitted by the
renderer must equal, position by position, the sequence of binding slots
produced by preparation — fails on the code for a shape that declares a
scalar field after a nested-join field.  For
`{ID; Addresses struct{City} join; Name}` the renderer emits the slots of
`ID, Name, Addresses.City` (own columns first, join columns after), while the
bindings are `ID, Addresses.City, Name` (interleaved in field order), so
`rows.Scan` stores `addresses.city` into `Name` and `users.name` into
`Addresses.City`. -/
theorem c2_emitted_columns_diverge_from_bindings :
    (prepareRoot standardNamer "users" shapeScalarAfterJoin).map
      (fun pr => ((emitColumns pr.1).map Column.slot, pr.2)) =
      .ok ([Slot.field [0], Slot.field [2], Slot.field [1, 0]],
        [Slot.field [0], Slot.field [1, 0], Slot.field [2]]) ∧
    ([Slot.field [0], Slot.field [2], Slot.field [1, 0]] : List Slot) ≠
      [Slot.field [0], Slot.field [1, 0], Slot.field [2]] := by
  exact ⟨rfl, by decide⟩

/-- C3: a shape containing a nested field (single struct join or has-many
slice) without a join-predicate tag makes statement construction fail with
the declaration error, and `All` raises it before any call to the
transaction collaborator: the query-call count stays `0`. -/
theorem c3_missing_join_tag_fails_before_io {Src Dest : Type} (nm : Namer)
    (tyName : String) (shape : List Fld) (tx : Tx Src) (transform : Src → Dest)
    (h : hasUntaggedJoin shape = true) :
    (AllGo nm tyName shape tx transform).1 = 0 ∧
    ∃ msg, (AllGo nm tyName shape tx transform).2 = .error (.inl msg) := by
  obtain ⟨e, he⟩ := prepareFlds_untagged_err nm shape h [] 0 emptyStmt []
  have hroot : prepareRoot nm tyName shape = .error e := by
    simp [prepareRoot, he]
  exact ⟨by simp [AllGo, hroot], e, by simp [AllGo, hroot]⟩

theorem c3_missing_join_tag_fails_before_io_witness :
    (AllGo standardNamer "users"
      [Fld.structJoin "Addresses" "" [Fld.scalar "City" ""]] txZeroRows
      (fun s : String => s)).1 = 0 ∧
    ∃ msg, (AllGo standardNamer "users"
      [Fld.structJoin "Addresses" "" [Fld.scalar "City" ""]] txZeroRows
      (fun s : String => s)).2 = .error (.inl msg) :=
  c3_missing_join_tag_fails_before_io standardNamer "users" _ txZeroRows _ (by decide)

/-- C4: when the executed query matches zero rows, `One` answers the
distinguished not-found error `sql.ErrNoRows` and never a zero-valued result
with a nil error — both on the has-many path (which delegates to `All` and
checks for an empty result list) and on the plain path (where the
`database/sql` single-row contract delivers `ErrNoRows` from `Scan`). -/
theorem c4_one_zero_rows_yields_not_found {Src Dest : Type} [Inhabited Dest]
    (nm : Namer) (tyName : String) (shape : List Fld) (tx : Tx Src)
    (transform : Src → Dest) :
    (hasManyShape shape = true → (∃ pr, prepareRoot nm tyName shape = .ok pr) →
      tx.queryRows = .ok [] → tx.closeErr = none →
      (OneGo nm tyName shape tx transform).2 = some (.inr errNoRows) ∧
        (OneGo nm tyName shape tx transform).2 ≠ none) ∧
    (hasManyShape shape = false → (∃ pr, prepareRoot nm tyName shape = .ok pr) →
      tx.rowScan.2 = some errNoRows →
      (OneGo nm tyName shape tx transform).2 = some (.inr errNoRows) ∧
        (OneGo nm tyName shape tx transform).2 ≠ none) := by
  constructor
  · rintro hmany ⟨pr, hok⟩ hq hc
    have : OneGo nm tyName shape tx transform = (default, some (.inr errNoRows)) := by
      simp [OneGo, hmany, AllGo, hok, AllExec, hq, scanAll, hc]
    simp [this]
  · rintro hmany ⟨pr, hok⟩ hscan
    have : (OneGo nm tyName shape tx transform).2 = some (.inr errNoRows) := by
      simp [OneGo, hmany, hok, hscan]
    simp [this]

theorem c4_one_zero_rows_yields_not_found_witness :
    (OneGo standardNamer "users" shapeUsersMany txZeroRows
      (fun s : String => s)).2 = some (.inr errNoRows) ∧
    (OneGo standardNamer "users" shapeUsersPlain txZeroRows
      (fun s : String => s)).2 = some (.inr errNoRows) :=
  ⟨((c4_one_zero_rows_yields_not_found standardNamer "users" shapeUsersMany txZeroRows
      (fun s : String => s)).1 (by decide) ⟨_, rfl⟩ rfl rfl).1,
   ((c4_one_zero_rows_yields_not_found standardNamer "users" shapeUsersPlain txZeroRows
      (fun s : String => s)).2 (by decide) ⟨_, rfl⟩ rfl).1⟩

/-- C5 counterexample: the claim that the error returned by `All` for a
failed query call wraps the underlying cause is false.  `All` builds the
error with `fmt.Errorf("query: %v", err)` — `%v`, not `%w` — so for the
concrete cause `boom` the returned error is the plain leaf
`query: boom`: `errors.Is` does not recover the cause and there is nothing
to unwrap. -/
theorem c5_query_error_unrecoverable_cex :
    AllExec txQueryBoom (fun s : String => s) = .error (.base "query: boom") ∧
    errorsIs (.base "query: boom") (.base "boom") = false ∧
    (GoErr.base "query: boom").unwrap = none :=
  ⟨rfl, by decide, rfl⟩

/-- C5 amended: every failure of the transaction's query call is surfaced by
`All` as a leaf error whose message is `query: ` followed by the cause's
message; the cause is flattened into the text, not wrapped — it cannot be
recovered by unwrapping, and `errors.Is` never reaches it. -/
theorem c5_query_error_flattened_message {Src Dest : Type} (tx : Tx Src)
    (transform : Src → Dest) (cause : GoErr) (h : tx.queryRows = .error cause) :
    AllExec tx transform = .error (.base ("query: " ++ cause.message)) ∧
    (GoErr.base ("query: " ++ cause.message)).unwrap = none ∧
    errorsIs (.base ("query: " ++ cause.message)) cause = false := by
  refine ⟨by simp [AllExec, h], rfl, ?_⟩
  rw [errorsIs, beq_eq_false_iff_ne]
  cases cause with
  | base m =>
    intro heq
    injection heq with heq
    exact query_prefix_ne m (by simpa [GoErr.message] using heq)
  | wrapped m c => intro heq; exact GoErr.noConfusion heq

theorem c5_query_error_flattened_message_witness :
    AllExec txQueryBoom (fun s : String => s) =
      .error (.base ("query: " ++ (GoErr.base "boom").message)) ∧
    (GoErr.base ("query: " ++ (GoErr.base "boom").message)).unwrap = none ∧
    errorsIs (.base ("query: " ++ (GoErr.base "boom").message)) (.base "boom") = false :=
  c5_query_error_flattened_message txQueryBoom (fun s : String => s)
    (.base "boom") rfl

/-- C10: for a shape without a has-many relationship, `One` returns
`transform(src)` paired with the scan error even when the scan failed: the
destination is the transform of the (zero or partially populated) scanned
source, not an untouched zero destination. -/
theorem c10_one_transform_applied_despite_scan_error {Src Dest : Type}
    [Inhabited Dest] (nm : Namer) (tyName : String) (shape : List Fld)
    (tx : Tx Src) (transform : Src → Dest) (src0 : Src) (e : GoErr)
    (hmany : hasManyShape shape = false)
    (hok : ∃ pr, prepareRoot nm tyName shape = .ok pr)
    (hscan : tx.rowScan = (src0, some e)) :
    OneGo nm tyName shape tx transform = (transform src0, some (.inr e)) := by
  obtain ⟨pr, hok⟩ := hok
  simp [OneGo, hmany, hok, hscan]

theorem c10_one_transform_applied_despite_scan_error_witness :
    OneGo standardNamer "users" shapeUsersPlain txScanFails String.length =
      ("partial".length, some (.inr (.base "unsupported Scan"))) :=
  c10_one_transform_applied_despite_scan_error standardNamer "users"
    shapeUsersPlain txScanFails String.length "partial" (.base "unsupported Scan")
    (by decide) ⟨_, rfl⟩ rfl

/-! ## C6: the rendered SQL of an all-scalar shape -/

/-- The columns `prepare` builds for a run of scalar fields without explicit
column tags, starting at loop index `i`. -/
def scalarCols (nm : Namer) (path : List Nat) : List String → Nat → List Column
  | [], _ => []
  | f :: fs, i =>
    { name := nm.columnName f, asName := "", useTable := true,
      slot := .field (path ++ [i]) } :: scalarCols nm path fs (i + 1)

/-- The binding slots `prepare` builds for a run of scalar fields. -/
def scalarSlots (path : List Nat) : List String → Nat → List Slot
  | [], _ => []
  | _ :: fs, i => Slot.field (path ++ [i]) :: scalarSlots path fs (i + 1)

/-- Concatenation of a list of strings. -/
def joinAll : List String → String
  | [] => ""
  | x :: xs => x ++ joinAll xs

/-- Comma-separated concatenation: `x1, x2, ..., xn`. -/
def commaSeparated : List String → String
  | [] => ""
  | x :: xs => x ++ joinAll (xs.map fun y => ", " ++ y)

theorem prepareFlds_scalars (nm : Namer) (path : List Nat) (fs : List String) :
    ∀ (i : Nat) (st : Stmt) (bs : List Slot),
    prepareFlds nm (fs.map fun f => Fld.scalar f "") path i st bs =
      .ok (st.withColumns (st.columns ++ scalarCols nm path fs i),
        bs ++ scalarSlots path fs i) := by
  induction fs with
  | nil =>
    intro i st bs
    cases st
    simp [prepareFlds, scalarCols, scalarSlots, Stmt.withColumns, Stmt.columns]
  | cons f fs ih =>
    intro i st bs
    rw [List.map_cons, prepareFlds, prepareFld]
    simp only []
    rw [ih (i + 1)]
    cases st
    simp [Stmt.withColumns, Stmt.columns, scalarCols, scalarSlots, List.append_assoc]

theorem writeColumnsOwn_scalars_pos (nm : Namer) (t : String) (path : List Nat)
    (fs : List String) : ∀ (i j : Nat), 0 < j →
    writeColumnsOwn t (scalarCols nm path fs i) j =
      joinAll (fs.map fun f => ", " ++ (t ++ "." ++ nm.columnName f)) := by
  induction fs with
  | nil => intro i j _; simp [scalarCols, writeColumnsOwn, joinAll]
  | cons f fs ih =>
    intro i j hj
    rw [scalarCols, writeColumnsOwn]
    rw [ih (i + 1) (j + 1) (by omega)]
    have hjp : (j > 0) = True := by simp [hj]
    simp [colText, hjp, joinAll, String.append_assoc]

theorem writeColumnsOwn_scalars_zero (nm : Namer) (t : String) (path : List Nat)
    (fs : List String) :
    writeColumnsOwn t (scalarCols nm path fs 0) 0 =
      commaSeparated (fs.map fun f => t ++ "." ++ nm.columnName f) := by
  cases fs with
  | nil => simp [scalarCols, writeColumnsOwn, commaSeparated]
  | cons f fs =>
    rw [scalarCols, writeColumnsOwn,
      writeColumnsOwn_scalars_pos nm t path fs 1 1 (by omega)]
    simp [colText, commaSeparated, String.append_assoc, List.map_map, Function.comp_def]

/-- C6: a shape whose fields are all scalar, carry no explicit column tags
and include no markers renders exactly
`SELECT <table>.<col1>, ..., <table>.<coln> FROM <table>`, the columns in
field-declaration order with snake-cased field names and the table the
snake-cased shape name. -/
theorem c6_scalar_shape_sql (tyName : String) (fs : List String) :
    (prepareRoot standardNamer tyName (fs.map fun f => Fld.scalar f "")).map
      (fun pr => pr.1.SQL) =
    .ok ("SELECT " ++
      commaSeparated (fs.map fun f => underscore tyName ++ "." ++ underscore f) ++
      " FROM " ++ underscore tyName) := by
  have hprep : prepareRoot standardNamer tyName (fs.map fun f => Fld.scalar f "") =
      .ok (Stmt.mk (scalarCols standardNamer [] fs 0) (underscore tyName)
        [] [] [] "" "" .noJoin "" [], scalarSlots [] fs 0) := by
    rw [prepareRoot, prepareFlds_scalars]
    simp [emptyStmt, Stmt.withColumns, Stmt.columns, Stmt.table, Stmt.withTable,
      standardNamer]
  rw [hprep]
  simp only [Except.map]
  rw [Stmt.SQL]
  simp only [Stmt.table, Stmt.columns, Stmt.joins, Stmt.limit, Stmt.offset,
    Stmt.conditions, Stmt.order, Stmt.group, writeColumns, writeColumnsJoins,
    writeJoinList, hasConditions, hasConditionsJoins, hasGroup, hasGroupJoins,
    hasOrder, hasOrderJoins]
  rw [writeColumnsOwn_scalars_zero]
  have hcol : (fun f => underscore tyName ++ "." ++ standardNamer.columnName f) =
      (fun f => underscore tyName ++ "." ++ underscore f) := rfl
  simp [standardNamer, hcol, String.append_assoc]

/-! ## C7: table naming -/

theorem Stmt.table_withColumns (st : Stmt) (v : List Column) :
    (st.withColumns v).table = st.table := by cases st; rfl
theorem Stmt.table_withConditions (st : Stmt) (v : List String) :
    (st.withConditions v).table = st.table := by cases st; rfl
theorem Stmt.table_withOrder (st : Stmt) (v : List String) :
    (st.withOrder v).table = st.table := by cases st; rfl
theorem Stmt.table_withGroup (st : Stmt) (v : List String) :
    (st.withGroup v).table = st.table := by cases st; rfl
theorem Stmt.table_withLimit (st : Stmt) (v : String) :
    (st.withLimit v).table = st.table := by cases st; rfl
theorem Stmt.table_withOffset (st : Stmt) (v : String) :
    (st.withOffset v).table = st.table := by cases st; rfl
theorem Stmt.table_withJoin (st : Stmt) (v : JoinKind) :
    (st.withJoin v).table = st.table := by cases st; rfl
theorem Stmt.table_withOnPred (st : Stmt) (v : String) :
    (st.withOnPred v).table = st.table := by cases st; rfl
theorem Stmt.table_withJoins (st : Stmt) (v : List Stmt) :
    (st.withJoins v).table = st.table := by cases st; rfl
theorem Stmt.table_withTable (st : Stmt) (v : String) :
    (st.withTable v).table = v := by cases st; rfl

/-- The field loop splits over list append: run the prefix first, then the
suffix from the accumulated state, with the loop index advanced. -/
theorem prepareFlds_append (nm : Namer) (xs ys : List Fld) (path : List Nat) :
    ∀ (i : Nat) (st : Stmt) (bs : List Slot),
    prepareFlds nm (xs ++ ys) path i st bs =
      match prepareFlds nm xs path i st bs with
      | .error e => .error e
      | .ok (st2, bs2) => prepareFlds nm ys path (i + xs.length) st2 bs2 := by
  induction xs with
  | nil => intro i st bs; simp [prepareFlds]
  | cons f xs ih =>
    intro i st bs
    rw [List.cons_append, prepareFlds, prepareFlds]
    cases hf : prepareFld nm f path i st bs with
    | error e => simp
    | ok acc =>
      obtain ⟨st2, bs2⟩ := acc
      simp only []
      rw [ih]
      have harith : i + (f :: xs).length = i + 1 + xs.length := by
        simp [List.length_cons]; omega
      rw [harith]

mutual
/-- A field free of `Table` markers (also inside embedded shapes) leaves the
statement's table unchanged. -/
theorem prepareFld_table_id (nm : Namer) (f : Fld) (path : List Nat) (i : Nat)
    (st : Stmt) (bs : List Slot) (st2 : Stmt) (bs2 : List Slot)
    (hok : prepareFld nm f path i st bs = .ok (st2, bs2))
    (h : f.noTableF = true) : st2.table = st.table := by
  cases f with
  | tableMarker tag => simp [Fld.noTableF] at h
  | conditionsMarker tag =>
    simp only [prepareFld, Except.ok.injEq, Prod.mk.injEq] at hok
    rw [← hok.1, Stmt.table_withConditions]
  | orderByMarker tag =>
    simp only [prepareFld, Except.ok.injEq, Prod.mk.injEq] at hok
    rw [← hok.1, Stmt.table_withOrder]
  | groupByMarker tag =>
    simp only [prepareFld, Except.ok.injEq, Prod.mk.injEq] at hok
    rw [← hok.1, Stmt.table_withGroup]
  | leftJoinMarker =>
    simp only [prepareFld, Except.ok.injEq, Prod.mk.injEq] at hok
    rw [← hok.1, Stmt.table_withJoin]
  | limitMarker tag =>
    simp only [prepareFld, Except.ok.injEq, Prod.mk.injEq] at hok
    rw [← hok.1, Stmt.table_withLimit]
  | offsetMarker tag =>
    simp only [prepareFld, Except.ok.injEq, Prod.mk.injEq] at hok
    rw [← hok.1, Stmt.table_withOffset]
  | scalar name tag =>
    simp only [prepareFld, Except.ok.injEq, Prod.mk.injEq] at hok
    rw [← hok.1, Stmt.table_withColumns]
  | sliceJoin name tyName tag sub =>
    rw [prepareFld] at hok
    by_cases htag : tag = ""
    · simp [htag] at hok
    · rw [if_neg htag] at hok
      cases hsub : prepareFlds nm sub (path ++ [i]) 0 emptyStmt [] with
      | error e => simp [hsub] at hok
      | ok acc =>
        obtain ⟨s0, b0⟩ := acc
        rw [hsub] at hok
        simp only [Except.ok.injEq, Prod.mk.injEq] at hok
        rw [← hok.1, Stmt.table_withJoins]
  | structJoin name tag sub =>
    rw [prepareFld] at hok
    by_cases htag : tag = ""
    · simp [htag] at hok
    · rw [if_neg htag] at hok
      cases hsub : prepareFlds nm sub (path ++ [i]) 0 emptyStmt [] with
      | error e => simp [hsub] at hok
      | ok acc =>
        obtain ⟨s0, b0⟩ := acc
        rw [hsub] at hok
        simp only [Except.ok.injEq, Prod.mk.injEq] at hok
        rw [← hok.1, Stmt.table_withJoins]
  | embedded name sub =>
    rw [Fld.noTableF] at h
    cases hsub : prepareFlds nm sub (path ++ [i]) 0 emptyStmt [] with
    | error e => rw [prepareFld] at hok; simp [hsub] at hok
    | ok acc =>
      obtain ⟨s0, b0⟩ := acc
      have hs0 : s0.table = emptyStmt.table :=
        prepareFlds_table_id nm sub (path ++ [i]) 0 emptyStmt [] s0 b0 hsub h
      rw [prepareFld, hsub] at hok
      simp only [Except.ok.injEq, Prod.mk.injEq] at hok
      rw [← hok.1]
      rw [Stmt.table_withJoins, Stmt.table_withOrder, Stmt.table_withGroup,
        Stmt.table_withConditions, Stmt.table_withColumns]
      by_cases ht : st.table = ""
      · rw [if_pos ht, Stmt.table_withTable, hs0, ht]; rfl
      · rw [if_neg ht]

/-- A shape free of `Table` markers (also inside embedded shapes) leaves the
statement's table unchanged across the whole field loop. -/
theorem prepareFlds_table_id (nm : Namer) (flds : List Fld) (path : List Nat)
    (i : Nat) (st : Stmt) (bs : List Slot) (st2 : Stmt) (bs2 : List Slot)
    (hok : prepareFlds nm flds path i st bs = .ok (st2, bs2))
    (h : noTableMarkerE flds = true) : st2.table = st.table := by
  cases flds with
  | nil =>
    rw [prepareFlds] at hok
    simp only [Except.ok.injEq, Prod.mk.injEq] at hok
    rw [← hok.1]
  | cons f rest =>
    rw [noTableMarkerE] at h
    simp only [Bool.and_eq_true] at h
    rw [prepareFlds] at hok
    cases hf : prepareFld nm f path i st bs with
    | error e => rw [hf] at hok; exact absurd hok (by simp)
    | ok acc =>
      obtain ⟨stm, bsm⟩ := acc
      rw [hf] at hok
      simp only [] at hok
      have h1 := prepareFld_table_id nm f path i st bs stm bsm hf h.1
      have h2 := prepareFlds_table_id nm rest path (i + 1) stm bsm st2 bs2 hok h.2
      rw [h2, h1]
end

/-- A field that is not a `Table` marker cannot blank an already-set table:
the statement's table is preserved. -/
theorem prepareFld_table_keep (nm : Namer) (f : Fld) (path : List Nat) (i : Nat)
    (st : Stmt) (bs : List Slot) (st2 : Stmt) (bs2 : List Slot)
    (hok : prepareFld nm f path i st bs = .ok (st2, bs2))
    (hnm : f.isTableM = false) (ht : st.table ≠ "") : st2.table = st.table := by
  cases f with
  | tableMarker tag => simp [Fld.isTableM] at hnm
  | conditionsMarker tag =>
    simp only [prepareFld, Except.ok.injEq, Prod.mk.injEq] at hok
    rw [← hok.1, Stmt.table_withConditions]
  | orderByMarker tag =>
    simp only [prepareFld, Except.ok.injEq, Prod.mk.injEq] at hok
    rw [← hok.1, Stmt.table_withOrder]
  | groupByMarker tag =>
    simp only [prepareFld, Except.ok.injEq, Prod.mk.injEq] at hok
    rw [← hok.1, Stmt.table_withGroup]
  | leftJoinMarker =>
    simp only [prepareFld, Except.ok.injEq, Prod.mk.injEq] at hok
    rw [← hok.1, Stmt.table_withJoin]
  | limitMarker tag =>
    simp only [prepareFld, Except.ok.injEq, Prod.mk.injEq] at hok
    rw [← hok.1, Stmt.table_withLimit]
  | offsetMarker tag =>
    simp only [prepareFld, Except.ok.injEq, Prod.mk.injEq] at hok
    rw [← hok.1, Stmt.table_withOffset]
  | scalar name tag =>
    simp only [prepareFld, Except.ok.injEq, Prod.mk.injEq] at hok
    rw [← hok.1, Stmt.table_withColumns]
  | sliceJoin name tyName tag sub =>
    rw [prepareFld] at hok
    by_cases htag : tag = ""
    · simp [htag] at hok
    · rw [if_neg htag] at hok
      cases hsub : prepareFlds nm sub (path ++ [i]) 0 emptyStmt [] with
      | error e => simp [hsub] at hok
      | ok acc =>
        obtain ⟨s0, b0⟩ := acc
        rw [hsub] at hok
        simp only [Except.ok.injEq, Prod.mk.injEq] at hok
        rw [← hok.1, Stmt.table_withJoins]
  | structJoin name tag sub =>
    rw [prepareFld] at hok
    by_cases htag : tag = ""
    · simp [htag] at hok
    · rw [if_neg htag] at hok
      cases hsub : prepareFlds nm sub (path ++ [i]) 0 emptyStmt [] with
      | error e => simp [hsub] at hok
      | ok acc =>
        obtain ⟨s0, b0⟩ := acc
        rw [hsub] at hok
        simp only [Except.ok.injEq, Prod.mk.injEq] at hok
        rw [← hok.1, Stmt.table_withJoins]
  | embedded name sub =>
    cases hsub : prepareFlds nm sub (path ++ [i]) 0 emptyStmt [] with
    | error e => rw [prepareFld] at hok; simp [hsub] at hok
    | ok acc =>
      obtain ⟨s0, b0⟩ := acc
      rw [prepareFld, hsub] at hok
      simp only [Except.ok.injEq, Prod.mk.injEq] at hok
      rw [← hok.1]
      rw [Stmt.table_withJoins, Stmt.table_withOrder, Stmt.table_withGroup,
        Stmt.table_withConditions, Stmt.table_withColumns]
      rw [if_neg ht]

/-- An already-set table survives any field run free of top-level `Table`
markers. -/
theorem prepareFlds_table_keep (nm : Namer) (flds : List Fld) (path : List Nat) :
    ∀ (i : Nat) (st : Stmt) (bs : List Slot) (st2 : Stmt) (bs2 : List Slot),
    prepareFlds nm flds path i st bs = .ok (st2, bs2) →
    noTopTableMarker flds = true → st.table ≠ "" → st2.table = st.table := by
  induction flds with
  | nil =>
    intro i st bs st2 bs2 hok _ _
    rw [prepareFlds] at hok
    simp only [Except.ok.injEq, Prod.mk.injEq] at hok
    rw [← hok.1]
  | cons f rest ih =>
    intro i st bs st2 bs2 hok h ht
    rw [noTopTableMarker] at h
    simp only [Bool.and_eq_true, Bool.not_eq_true'] at h
    rw [prepareFlds] at hok
    cases hf : prepareFld nm f path i st bs with
    | error e => rw [hf] at hok; exact absurd hok (by simp)
    | ok acc =>
      obtain ⟨stm, bsm⟩ := acc
      rw [hf] at hok
      simp only [] at hok
      have h1 := prepareFld_table_keep nm f path i st bs stm bsm hf h.1 ht
      have h2 := ih (i + 1) stm bsm st2 bs2 hok h.2 (by rw [h1]; exact ht)
      rw [h2, h1]

/-- C7 counterexample: the claim that an explicit `Table` marker always wins
is false when the marker's tag is empty.  A shape composing `query.Table`
without a `q` tag sets the table to `""`, so the depth-0 default still fires
and the rendered table is the derived snake-case shape name — not the
marker's (empty) tag value. -/
theorem c7_empty_tag_marker_cex :
    (prepareRoot standardNamer "UserProfiles"
      [Fld.tableMarker "", Fld.scalar "ID" ""]).map (fun pr => pr.1.table) =
      .ok "user_profiles" ∧
    ("user_profiles" : String) ≠ "" :=
  ⟨rfl, by decide⟩

/-- C7 amended: the root table defaults to the namer-derived (snake-case)
shape name when the shape carries no `Table` marker anywhere `prepare` merges
from (its own fields and embedded shapes); a `Table` marker with a nonempty
tag always wins, whatever precedes it and whatever non-marker fields follow;
a marker with an empty tag falls back to the derived name. -/
theorem c7_table_default_and_nonempty_marker_wins (nm : Namer) (tyName : String)
    (flds xs ys : List Fld) (t : String) :
    (noTableMarkerE flds = true →
      (prepareRoot nm tyName flds).map (fun pr => pr.1.table) =
        (prepareRoot nm tyName flds).map (fun _ => nm.tableName tyName)) ∧
    (t ≠ "" → noTopTableMarker ys = true →
      (prepareRoot nm tyName (xs ++ Fld.tableMarker t :: ys)).map
          (fun pr => pr.1.table) =
        (prepareRoot nm tyName (xs ++ Fld.tableMarker t :: ys)).map (fun _ => t)) ∧
    (noTableMarkerE ys = true →
      (prepareRoot nm tyName (xs ++ Fld.tableMarker "" :: ys)).map
          (fun pr => pr.1.table) =
        (prepareRoot nm tyName (xs ++ Fld.tableMarker "" :: ys)).map
          (fun _ => nm.tableName tyName)) := by
  refine ⟨?_, ?_, ?_⟩
  · intro h
    cases h0 : prepareFlds nm flds [] 0 emptyStmt [] with
    | error e => simp [prepareRoot, h0, Except.map]
    | ok acc =>
      obtain ⟨st, bs⟩ := acc
      have hst : st.table = "" := by
        have := prepareFlds_table_id nm flds [] 0 emptyStmt [] st bs h0 h
        rw [this]; rfl
      simp [prepareRoot, h0, hst, Except.map, Stmt.table_withTable]
  · intro hne h
    have happ := prepareFlds_append nm xs (Fld.tableMarker t :: ys) [] 0 emptyStmt []
    simp only [Nat.zero_add] at happ
    cases hx : prepareFlds nm xs [] 0 emptyStmt [] with
    | error e => simp [prepareRoot, happ, hx, Except.map]
    | ok acc =>
      obtain ⟨stx, bsx⟩ := acc
      have hstep : prepareFlds nm (Fld.tableMarker t :: ys) [] (xs.length) stx bsx =
          prepareFlds nm ys [] (xs.length + 1) (stx.withTable t) bsx := by
        rw [prepareFlds, prepareFld]
      cases hy : prepareFlds nm ys [] (xs.length + 1) (stx.withTable t) bsx with
      | error e => simp [prepareRoot, happ, hx, hstep, hy, Except.map]
      | ok acc2 =>
        obtain ⟨st, bs⟩ := acc2
        have hsttable : st.table = t := by
          have := prepareFlds_table_keep nm ys [] (xs.length + 1)
            (stx.withTable t) bsx st bs hy h
            (by rw [Stmt.table_withTable]; exact hne)
          rw [this, Stmt.table_withTable]
        have hne2 : ¬(st.table = "") := by rw [hsttable]; exact hne
        simp [prepareRoot, happ, hx, hstep, hy, Except.map, hne2, hsttable]
        rw [if_neg hne]
        exact hsttable
  · intro h
    have happ := prepareFlds_append nm xs (Fld.tableMarker "" :: ys) [] 0 emptyStmt []
    simp only [Nat.zero_add] at happ
    cases hx : prepareFlds nm xs [] 0 emptyStmt [] with
    | error e => simp [prepareRoot, happ, hx, Except.map]
    | ok acc =>
      obtain ⟨stx, bsx⟩ := acc
      have hstep : prepareFlds nm (Fld.tableMarker "" :: ys) [] (xs.length) stx bsx =
          prepareFlds nm ys [] (xs.length + 1) (stx.withTable "") bsx := by
        rw [prepareFlds, prepareFld]
      cases hy : prepareFlds nm ys [] (xs.length + 1) (stx.withTable "") bsx with
      | error e => simp [prepareRoot, happ, hx, hstep, hy, Except.map]
      | ok acc2 =>
        obtain ⟨st, bs⟩ := acc2
        have hsttable : st.table = "" := by
          have := prepareFlds_table_id nm ys [] (xs.length + 1)
            (stx.withTable "") bsx st bs hy h
          rw [this, Stmt.table_withTable]
        simp [prepareRoot, happ, hx, hstep, hy, Except.map, hsttable,
          Stmt.table_withTable]

theorem c7_table_default_and_nonempty_marker_wins_witness :
    ((prepareRoot standardNamer "UserProfiles" [Fld.scalar "ID" ""]).map
        (fun pr => pr.1.table) =
      (prepareRoot standardNamer "UserProfiles" [Fld.scalar "ID" ""]).map
        (fun _ => standardNamer.tableName "UserProfiles")) ∧
    ((prepareRoot standardNamer "UserProfiles"
        ([] ++ Fld.tableMarker "accounts" :: [Fld.scalar "ID" ""])).map
        (fun pr => pr.1.table) =
      (prepareRoot standardNamer "UserProfiles"
        ([] ++ Fld.tableMarker "accounts" :: [Fld.scalar "ID" ""])).map
        (fun _ => "accounts")) ∧
    ((prepareRoot standardNamer "UserProfiles"
        ([] ++ Fld.tableMarker "" :: [Fld.scalar "ID" ""])).map
        (fun pr => pr.1.table) =
      (prepareRoot standardNamer "UserProfiles"
        ([] ++ Fld.tableMarker "" :: [Fld.scalar "ID" ""])).map
        (fun _ => standardNamer.tableName "UserProfiles")) :=
  ⟨(c7_table_default_and_nonempty_marker_wins standardNamer "UserProfiles"
      [Fld.scalar "ID" ""] [] [Fld.scalar "ID" ""] "accounts").1 (by decide),
   (c7_table_default_and_nonempty_marker_wins standardNamer "UserProfiles"
      [Fld.scalar "ID" ""] [] [Fld.scalar "ID" ""] "accounts").2.1
      (by decide) (by decide),
   (c7_table_default_and_nonempty_marker_wins standardNamer "UserProfiles"
      [Fld.scalar "ID" ""] [] [Fld.scalar "ID" ""] "accounts").2.2 (by decide)⟩

/-! ## C8: LIMIT and OFFSET come only from the root statement -/

/-- Strong induction over statement trees: to prove `P` of a statement it
suffices to prove it assuming `P` of every child join. -/
theorem stmtInd {P : Stmt → Prop} (h : ∀ s : Stmt, (∀ j ∈ s.joins, P j) → P s) :
    ∀ s, P s := by
  intro s
  apply h
  intro j hj
  have hlt : sizeOf j < sizeOf s := by
    cases s with
    | mk cs t c o g l f jo p js =>
      simp only [Stmt.joins] at hj
      have h1 : sizeOf j < sizeOf js := List.sizeOf_lt_of_mem hj
      simp
      omega
  exact stmtInd h j
termination_by s => sizeOf s

mutual
/-- Blank the limit and offset of a statement and of all its nested joins. -/
def erasePagingAll : Stmt → Stmt
  | .mk cs t c o g _ _ j p js => .mk cs t c o g "" "" j p (erasePagingList js)

def erasePagingList : List Stmt → List Stmt
  | [] => []
  | j :: rest => erasePagingAll j :: erasePagingList rest
end

/-- Blank the limit and offset of every nested (joined) statement, keeping
the root's. -/
def eraseNestedPaging : Stmt → Stmt
  | .mk cs t c o g l f j p js => .mk cs t c o g l f j p (erasePagingList js)

/-- Every renderer component is unchanged when limit and offset are blanked
throughout a statement. -/
def pagingInert (s : Stmt) : Prop :=
  (∀ i, writeColumns (erasePagingAll s) i = writeColumns s i) ∧
  writeJoin (erasePagingAll s) = writeJoin s ∧
  hasConditions (erasePagingAll s) = hasConditions s ∧
  (∀ d, writeConditions (erasePagingAll s) d = writeConditions s d) ∧
  hasGroup (erasePagingAll s) = hasGroup s ∧
  (∀ d, writeGroup (erasePagingAll s) d = writeGroup s d) ∧
  hasOrder (erasePagingAll s) = hasOrder s ∧
  (∀ d, writeOrder (erasePagingAll s) d = writeOrder s d)

theorem pagingInertList (js : List Stmt) (IH : ∀ x ∈ js, pagingInert x) :
    (∀ i, writeColumnsJoins (erasePagingList js) i = writeColumnsJoins js i) ∧
    writeJoinList (erasePagingList js) = writeJoinList js ∧
    hasConditionsJoins (erasePagingList js) = hasConditionsJoins js ∧
    (∀ d, writeConditionsJoins (erasePagingList js) d = writeConditionsJoins js d) ∧
    hasGroupJoins (erasePagingList js) = hasGroupJoins js ∧
    (∀ d, writeGroupJoins (erasePagingList js) d = writeGroupJoins js d) ∧
    hasOrderJoins (erasePagingList js) = hasOrderJoins js ∧
    (∀ d, writeOrderJoins (erasePagingList js) d = writeOrderJoins js d) := by
  induction js with
  | nil =>
    exact ⟨fun i => rfl, rfl, rfl, fun d => rfl, rfl, fun d => rfl, rfl, fun d => rfl⟩
  | cons j rest ih =>
    have hpj : pagingInert j := IH j (List.mem_cons_self j rest)
    have hrest := ih (fun x hx => IH x (List.mem_cons_of_mem j hx))
    obtain ⟨hc, hj, hhc, hwc, hhg, hwg, hho, hwo⟩ := hpj
    obtain ⟨rc, rj, rhc, rwc, rhg, rwg, rho, rwo⟩ := hrest
    refine ⟨?_, ?_, ?_, ?_, ?_, ?_, ?_, ?_⟩
    · intro i
      rw [erasePagingList, writeColumnsJoins, writeColumnsJoins, hc, rc]
    · rw [erasePagingList, writeJoinList, writeJoinList, hj, rj]
    · rw [erasePagingList, hasConditionsJoins, hasConditionsJoins, hhc, rhc]
    · intro d
      rw [erasePagingList, writeConditionsJoins, writeConditionsJoins, hwc, rwc]
    · rw [erasePagingList, hasGroupJoins, hasGroupJoins, hhg, rhg]
    · intro d
      rw [erasePagingList, writeGroupJoins, writeGroupJoins, hwg, rwg]
    · rw [erasePagingList, hasOrderJoins, hasOrderJoins, hho, rho]
    · intro d
      rw [erasePagingList, writeOrderJoins, writeOrderJoins, hwo, rwo]

theorem pagingInertAll : ∀ s, pagingInert s := by
  refine stmtInd ?_
  intro s IH
  cases s with
  | mk cs t c o g l f jo p js =>
    simp only [Stmt.joins] at IH
    have hl := pagingInertList js IH
    obtain ⟨rc, rj, rhc, rwc, rhg, rwg, rho, rwo⟩ := hl
    refine ⟨?_, ?_, ?_, ?_, ?_, ?_, ?_, ?_⟩
    · intro i
      rw [erasePagingAll, writeColumns, writeColumns, rc]
    · cases jo <;> simp [erasePagingAll, writeJoin, rj]
    · rw [erasePagingAll, hasConditions, hasConditions, rhc]
    · intro d
      rw [erasePagingAll, writeConditions, writeConditions, rwc]
    · rw [erasePagingAll, hasGroup, hasGroup, rhg]
    · intro d
      rw [erasePagingAll, writeGroup, writeGroup, rwg]
    · rw [erasePagingAll, hasOrder, hasOrder, rho]
    · intro d
      rw [erasePagingAll, writeOrder, writeOrder, rwo]

/-- C8: the rendered SQL carries LIMIT and OFFSET clauses only for the root
statement's values.  First conjunct: blanking the limit and offset of every
nested (joined) statement leaves the output unchanged — nested values never
appear.  Second conjunct: the output is exactly the paging-free rendering
followed by ` LIMIT <root.limit>` and ` OFFSET <root.offset>`, each clause
present exactly when the root value is nonempty. -/
theorem c8_paging_only_from_root (s : Stmt) :
    (eraseNestedPaging s).SQL = s.SQL ∧
    s.SQL = ((s.withLimit "").withOffset "").SQL ++
      (if s.limit = "" then "" else " LIMIT " ++ s.limit) ++
      (if s.offset = "" then "" else " OFFSET " ++ s.offset) := by
  cases s with
  | mk cs t c o g l f jo p js =>
    have hl := pagingInertList js (fun x _ => pagingInertAll x)
    obtain ⟨rc, rj, rhc, rwc, rhg, rwg, rho, rwo⟩ := hl
    constructor
    · rw [eraseNestedPaging]
      rw [Stmt.SQL, Stmt.SQL]
      simp only [Stmt.table, Stmt.columns, Stmt.joins, Stmt.limit, Stmt.offset,
        Stmt.conditions, Stmt.order, Stmt.group, writeColumns, hasConditions,
        hasGroup, hasOrder, writeConditions, writeGroup, writeOrder]
      rw [rc, rj, rhc, rwc, rhg, rwg, rho, rwo]
    · rw [Stmt.withLimit, Stmt.withOffset]
      rw [Stmt.SQL, Stmt.SQL]
      simp only [Stmt.table, Stmt.columns, Stmt.joins, Stmt.limit, Stmt.offset,
        Stmt.conditions, Stmt.order, Stmt.group]
      simp [writeColumns, hasConditions, writeConditions, hasGroup, writeGroup,
        hasOrder, writeOrder, String.append_assoc]

/-! ## C9: embedding flattens into the composing statement -/

/-- C9: processing an anonymous embedded shape merges the embedded shape's
columns, conditions, group, order and joins directly into the composing
statement — same table scope (the embedded table is adopted only when the
composing statement has none), no join entry created for the embed — and for
every same-kind list the embedded shape's entries are concatenated before
the entries the composing shape gathered from its earlier fields, while the
bindings are appended after them.  The embedded shape's limit, offset, join
kind and join predicate are dropped. -/
theorem c9_embedding_flattens (nm : Namer) (path : List Nat) (i : Nat)
    (cs : List Column) (t : String) (cnd ord grp : List String) (lim off : String)
    (jk : JoinKind) (op : String) (js : List Stmt) (bs : List Slot)
    (name : String) (sub : List Fld) (sE : Stmt) (bE : List Slot)
    (hE : prepareFlds nm sub (path ++ [i]) 0 emptyStmt [] = .ok (sE, bE)) :
    prepareFld nm (Fld.embedded name sub) path i
      (.mk cs t cnd ord grp lim off jk op js) bs =
    .ok (.mk (sE.columns ++ cs) (if t = "" then sE.table else t)
      (sE.conditions ++ cnd) (sE.order ++ ord) (sE.group ++ grp)
      lim off jk op (sE.joins ++ js), bs ++ bE) := by
  rw [prepareFld, hE]
  by_cases ht : t = "" <;>
    simp [ht, Stmt.table, Stmt.withTable, Stmt.withColumns, Stmt.withConditions,
      Stmt.withGroup, Stmt.withOrder, Stmt.withJoins, Stmt.columns, Stmt.conditions,
      Stmt.group, Stmt.order, Stmt.joins]

theorem c9_embedding_flattens_witness :
    prepareFld standardNamer
      (Fld.embedded "BaseUser" [Fld.conditionsMarker "name = ?", Fld.scalar "ID" ""])
      [] 0 (Stmt.mk [] "t0" ["c0"] ["o0"] ["g0"] "5" "7" JoinKind.noJoin "" [])
      [Slot.field [9]] =
    .ok (Stmt.mk
      ([{ name := "id", asName := "", useTable := true, slot := Slot.field [0, 1] }] ++ [])
      (if "t0" = "" then "" else "t0") (["name = ?"] ++ ["c0"]) ([] ++ ["o0"])
      ([] ++ ["g0"]) "5" "7" JoinKind.noJoin "" ([] ++ []),
      [Slot.field [9]] ++ [Slot.field [0, 1]]) :=
  c9_embedding_flattens standardNamer [] 0 [] "t0" ["c0"] ["o0"] ["g0"] "5" "7"
    JoinKind.noJoin "" [] [Slot.field [9]] "BaseUser"
    [Fld.conditionsMarker "name = ?", Fld.scalar "ID" ""]
    (Stmt.mk [{ name := "id", asName := "", useTable := true, slot := Slot.field [0, 1] }]
      "" ["name = ?"] [] [] "" "" JoinKind.noJoin "" [])
    [Slot.field [0, 1]] rfl

/-! ## C1: has-many hydration -/

/-- The dedup key of a top-level (parent) row element. -/
def rootHash (p : String) : String := (RowRef.mk none p).Hash

/-- The dedup key of a child element under a top-level parent: the child's
identity chained onto the parent's. -/
def childHash (p c : String) : String := (RowRef.mk (some (RowRef.mk none p)) c).Hash

/-- Under a fixed parent, the identity-chain hash is injective in the child
identity: this is what makes the `visited` map keyed by `rowRef.Hash` a
correct dedup of child identities. -/
theorem childHash_inj (p c1 c2 : String) (h : childHash p c1 = childHash p c2) :
    c1 = c2 := by
  have h2 : (("." ++ c1) ++ (("." ++ p) ++ "")) = (("." ++ c2) ++ (("." ++ p) ++ "")) := h
  have h3 := congrArg String.data h2
  rw [String.data_append, String.data_append, String.data_append,
    String.data_append] at h3
  have h4 := List.append_cancel_right h3
  have h5 := List.append_cancel_left h4
  exact String.ext h5

theorem dedupChildren_all_seen (c : String) (seen : List String) (hc : c ∈ seen) :
    ∀ rows : List Row1, (∀ r ∈ rows, r.cIdent = some c) →
    dedupChildren seen rows = [] := by
  intro rows
  induction rows with
  | nil => intro _; rw [dedupChildren]
  | cons r rest ih =>
    intro h
    rw [dedupChildren]
    have hr : r.cIdent = some c := h r (List.mem_cons_self r rest)
    simp only [hr, hc, if_pos]
    exact ih (fun r' h' => h r' (List.mem_cons_of_mem r h'))

theorem dedupChildren_all_none (seen : List String) :
    ∀ rows : List Row1, (∀ r ∈ rows, r.cIdent = none) →
    dedupChildren seen rows = [] := by
  intro rows
  induction rows with
  | nil => intro _; rw [dedupChildren]
  | cons r rest ih =>
    intro h
    rw [dedupChildren]
    have hr : r.cIdent = none := h r (List.mem_cons_self r rest)
    simp only [hr]
    exact ih (fun r' h' => h r' (List.mem_cons_of_mem r h'))

theorem dedupChildren_distinct :
    ∀ (rows : List Row1) (seen : List String),
    (∀ r ∈ rows, ∀ c, r.cIdent = some c → c ∉ seen) →
    (∀ r ∈ rows, (r.cIdent).isSome = true) →
    ((rows.map Row1.cIdent).Nodup) →
    dedupChildren seen rows = rows.map (fun r => ⟨r.cData⟩) := by
  intro rows
  induction rows with
  | nil => intro seen _ _ _; rw [dedupChildren]; rfl
  | cons r rest ih =>
    intro seen hdisj hall hnd
    obtain ⟨c, hc⟩ := Option.isSome_iff_exists.mp (hall r (List.mem_cons_self r rest))
    rw [dedupChildren]
    have hns : c ∉ seen := hdisj r (List.mem_cons_self r rest) c hc
    simp only [hc, hns, if_neg, ite_false]
    rw [List.map_cons]
    have hhead : (r.cIdent) ∉ rest.map Row1.cIdent := by
      rw [List.map_cons] at hnd
      exact (List.nodup_cons.mp hnd).1
    have hdisj2 : ∀ r' ∈ rest, ∀ c', r'.cIdent = some c' → c' ∉ c :: seen := by
      intro r' h' c' hc'
      intro hmem
      rcases List.mem_cons.mp hmem with he | hs
      · subst he
        apply hhead
        rw [hc, ← hc']
        exact List.mem_map_of_mem Row1.cIdent h'
      · exact hdisj r' (List.mem_cons_of_mem r h') c' hc' hs
    rw [ih (c :: seen) hdisj2 (fun r' h' => hall r' (List.mem_cons_of_mem r h'))
      (by rw [List.map_cons] at hnd; exact (List.nodup_cons.mp hnd).2)]

/-- The invariant of the scan loop for a consecutive run of rows of one
parent: with the parent already hydrated (one element holding children `ch`)
and the child `visited` map covering exactly the identities in `seen`, the
remaining rows extend the children by the first occurrence of each new
non-null child identity, in row order. -/
theorem hydrate_go (p d : String) :
    ∀ (rows : List Row1) (ch : List ChildElem) (seen : List String)
      (VC : List (String × (Nat × Nat))),
    (∀ r ∈ rows, r.pIdent = some p) →
    (∀ c : String, ((VC.lookup (childHash p c)).isSome = true ↔ c ∈ seen)) →
    (rows.foldl (fun st r => parentComplete r st)
      ⟨[⟨d, ch⟩], [(rootHash p, 0)], VC⟩).results =
    [⟨d, ch ++ dedupChildren seen rows⟩] := by
  intro rows
  induction rows with
  | nil =>
    intro ch seen VC _ _
    rw [dedupChildren]
    simp
  | cons r rest ih =>
    intro ch seen VC hp hinv
    have hpr : r.pIdent = some p := hp r (List.mem_cons_self r rest)
    have hptail : ∀ r' ∈ rest, r'.pIdent = some p :=
      fun r' h' => hp r' (List.mem_cons_of_mem r h')
    rw [List.foldl_cons]
    cases hc : r.cIdent with
    | none =>
      have hpc : parentComplete r ⟨[⟨d, ch⟩], [(rootHash p, 0)], VC⟩ =
          ⟨[⟨d, ch⟩], [(rootHash p, 0)], VC⟩ := by
        simp [parentComplete, hpr, childComplete, hc, rootHash, List.lookup]
      rw [hpc]
      rw [show dedupChildren seen (r :: rest) = dedupChildren seen rest by
        rw [dedupChildren]; simp [hc]]
      exact ih ch seen VC hptail hinv
    | some c =>
      by_cases hseen : c ∈ seen
      · obtain ⟨v, hv⟩ := Option.isSome_iff_exists.mp ((hinv c).mpr hseen)
        have hpc : parentComplete r ⟨[⟨d, ch⟩], [(rootHash p, 0)], VC⟩ =
            ⟨[⟨d, ch⟩], [(rootHash p, 0)], VC⟩ := by
          simp [parentComplete, hpr, childComplete, hc, rootHash, List.lookup]
          simp [show (RowRef.mk (some (RowRef.mk none p)) c).Hash = childHash p c
            from rfl, hv]
        rw [hpc]
        rw [show dedupChildren seen (r :: rest) = dedupChildren seen rest by
          rw [dedupChildren]; simp [hc, hseen]]
        exact ih ch seen VC hptail hinv
      · have hlk : VC.lookup (childHash p c) = none := by
          cases hopt : VC.lookup (childHash p c) with
          | none => rfl
          | some v =>
            exact absurd ((hinv c).mp (by rw [hopt]; rfl)) hseen
        have hpc : parentComplete r ⟨[⟨d, ch⟩], [(rootHash p, 0)], VC⟩ =
            ⟨[⟨d, ch ++ [⟨r.cData⟩]⟩], [(rootHash p, 0)],
              (childHash p c, (0, 0)) :: VC⟩ := by
          simp [parentComplete, hpr, childComplete, hc, rootHash, List.lookup]
          simp [show (RowRef.mk (some (RowRef.mk none p)) c).Hash = childHash p c
            from rfl, hlk, updateAt]
        rw [hpc]
        have hinv2 : ∀ c' : String,
            ((((childHash p c, (0, 0)) :: VC).lookup (childHash p c')).isSome = true ↔
              c' ∈ c :: seen) := by
          intro c'
          by_cases hcc : childHash p c = childHash p c'
          · have he : c = c' := childHash_inj p c c' hcc
            subst he
            simp [List.lookup]
          · have hne : c' ≠ c := fun he => hcc (by rw [he])
            have hbeq : (childHash p c' == childHash p c) = false := by
              rw [beq_eq_false_iff_ne]
              exact fun he => hcc he.symm
            simp [List.lookup, hbeq, hne, hinv c']
        have hrec := ih (ch ++ [{ cData := r.cData }]) (c :: seen)
          ((childHash p c, (0, 0)) :: VC) hptail hinv2
        rw [hrec]
        rw [show dedupChildren seen (r :: rest) =
            ⟨r.cData⟩ :: dedupChildren (c :: seen) rest by
          rw [dedupChildren]; simp [hc, hseen]]
        simp

/-- C1: hydrating a flat result set whose rows all carry one (non-null)
parent identity yields exactly one parent element, and that parent's child
collection is the first occurrence of each distinct non-null child identity
in row order (`dedupChildren`).  In particular: K rows with K distinct
non-null child identities yield K children in row order; rows repeating one
child identity yield exactly one child; a row whose scanned child identity
is null contributes no child element at all. -/
theorem c1_has_many_hydration (p : String) (r0 : Row1) (rest : List Row1)
    (hp : ∀ r ∈ r0 :: rest, r.pIdent = some p) :
    (hydrateModel (r0 :: rest)).results =
      [⟨r0.pData, dedupChildren [] (r0 :: rest)⟩] ∧
    ((∀ r ∈ r0 :: rest, (r.cIdent).isSome = true) →
      (((r0 :: rest).map Row1.cIdent).Nodup) →
      (hydrateModel (r0 :: rest)).results =
        [⟨r0.pData, (r0 :: rest).map (fun r => ⟨r.cData⟩)⟩]) ∧
    (∀ c, (∀ r ∈ r0 :: rest, r.cIdent = some c) →
      (hydrateModel (r0 :: rest)).results = [⟨r0.pData, [⟨r0.cData⟩]⟩]) ∧
    ((∀ r ∈ r0 :: rest, r.cIdent = none) →
      (hydrateModel (r0 :: rest)).results = [⟨r0.pData, []⟩]) := by
  have hp0 : r0.pIdent = some p := hp r0 (List.mem_cons_self r0 rest)
  have hptail : ∀ r' ∈ rest, r'.pIdent = some p :=
    fun r' h' => hp r' (List.mem_cons_of_mem r0 h')
  have master : (hydrateModel (r0 :: rest)).results =
      [⟨r0.pData, dedupChildren [] (r0 :: rest)⟩] := by
    rw [hydrateModel, List.foldl_cons]
    cases hc0 : r0.cIdent with
    | none =>
      have hpc : parentComplete r0 ⟨[], [], []⟩ =
          ⟨[⟨r0.pData, []⟩], [(rootHash p, 0)], []⟩ := by
        simp [parentComplete, hp0, childComplete, hc0, rootHash, List.lookup]
      rw [hpc]
      rw [show dedupChildren [] (r0 :: rest) = dedupChildren [] rest by
        rw [dedupChildren]; simp [hc0]]
      exact hydrate_go p r0.pData rest [] [] [] hptail (by simp [List.lookup])
    | some c =>
      have hpc : parentComplete r0 ⟨[], [], []⟩ =
          ⟨[⟨r0.pData, [{ cData := r0.cData }]⟩], [(rootHash p, 0)],
            [(childHash p c, (0, 0))]⟩ := by
        simp [parentComplete, hp0, childComplete, hc0, rootHash, List.lookup]
        simp [show (RowRef.mk (some (RowRef.mk none p)) c).Hash = childHash p c
          from rfl, updateAt]
      rw [hpc]
      have hinv1 : ∀ c' : String,
          (([(childHash p c, (0, 0))].lookup (childHash p c')).isSome = true ↔
            c' ∈ [c]) := by
        intro c'
        by_cases hcc : childHash p c = childHash p c'
        · have he : c = c' := childHash_inj p c c' hcc
          subst he
          simp [List.lookup]
        · have hne : c' ≠ c := fun he => hcc (by rw [he])
          have hbeq : (childHash p c' == childHash p c) = false := by
            rw [beq_eq_false_iff_ne]
            exact fun he => hcc he.symm
          simp [List.lookup, hbeq, hne]
      have hrec := hydrate_go p r0.pData rest [{ cData := r0.cData }] [c]
        [(childHash p c, (0, 0))] hptail hinv1
      rw [hrec]
      rw [show dedupChildren [] (r0 :: rest) =
          { cData := r0.cData } :: dedupChildren [c] rest by
        rw [dedupChildren]; simp [hc0]]
      simp
  refine ⟨master, ?_, ?_, ?_⟩
  · intro hall hnd
    rw [master]
    rw [dedupChildren_distinct (r0 :: rest) [] (by simp) hall hnd]
  · intro c hc
    rw [master]
    have hc0 : r0.cIdent = some c := hc r0 (List.mem_cons_self r0 rest)
    rw [show dedupChildren [] (r0 :: rest) =
        { cData := r0.cData } :: dedupChildren [c] rest by
      rw [dedupChildren]; simp [hc0]]
    rw [dedupChildren_all_seen c [c] (List.mem_singleton_self c) rest
      (fun r' h' => hc r' (List.mem_cons_of_mem r0 h'))]
  · intro hnone
    rw [master]
    rw [dedupChildren_all_none [] (r0 :: rest) hnone]

theorem c1_has_many_hydration_witness :
    (hydrateModel [⟨some "1", "A", some "10", "x"⟩, ⟨some "1", "A", some "11", "y"⟩,
      ⟨some "1", "A", none, "z"⟩, ⟨some "1", "A", some "10", "x"⟩]).results =
      [⟨"A", dedupChildren [] [⟨some "1", "A", some "10", "x"⟩,
        ⟨some "1", "A", some "11", "y"⟩, ⟨some "1", "A", none, "z"⟩,
        ⟨some "1", "A", some "10", "x"⟩]⟩] ∧
    ((∀ r ∈ ([⟨some "1", "A", some "10", "x"⟩, ⟨some "1", "A", some "11", "y"⟩,
        ⟨some "1", "A", none, "z"⟩, ⟨some "1", "A", some "10", "x"⟩] : List Row1),
        (r.cIdent).isSome = true) →
      ((([⟨some "1", "A", some "10", "x"⟩, ⟨some "1", "A", some "11", "y"⟩,
        ⟨some "1", "A", none, "z"⟩, ⟨some "1", "A", some "10", "x"⟩] : List Row1).map
          Row1.cIdent).Nodup) →
      (hydrateModel [⟨some "1", "A", some "10", "x"⟩, ⟨some "1", "A", some "11", "y"⟩,
        ⟨some "1", "A", none, "z"⟩, ⟨some "1", "A", some "10", "x"⟩]).results =
        [⟨"A", ([⟨some "1", "A", some "10", "x"⟩, ⟨some "1", "A", some "11", "y"⟩,
          ⟨some "1", "A", none, "z"⟩, ⟨some "1", "A", some "10", "x"⟩] : List Row1).map
            (fun r => ⟨r.cData⟩)⟩]) ∧
    (∀ c, (∀ r ∈ ([⟨some "1", "A", some "10", "x"⟩, ⟨some "1", "A", some "11", "y"⟩,
        ⟨some "1", "A", none, "z"⟩, ⟨some "1", "A", some "10", "x"⟩] : List Row1),
        r.cIdent = some c) →
      (hydrateModel [⟨some "1", "A", some "10", "x"⟩, ⟨some "1", "A", some "11", "y"⟩,
        ⟨some "1", "A", none, "z"⟩, ⟨some "1", "A", some "10", "x"⟩]).results =
        [⟨"A", [⟨"x"⟩]⟩]) ∧
    ((∀ r ∈ ([⟨some "1", "A", some "10", "x"⟩, ⟨some "1", "A", some "11", "y"⟩,
        ⟨some "1", "A", none, "z"⟩, ⟨some "1", "A", some "10", "x"⟩] : List Row1),
        r.cIdent = none) →
      (hydrateModel [⟨some "1", "A", some "10", "x"⟩, ⟨some "1", "A", some "11", "y"⟩,
        ⟨some "1", "A", none, "z"⟩, ⟨some "1", "A", some "10", "x"⟩]).results =
        [⟨"A", []⟩]) :=
  c1_has_many_hydration "1" ⟨some "1", "A", some "10", "x"⟩
    [⟨some "1", "A", some "11", "y"⟩, ⟨some "1", "A", none, "z"⟩,
      ⟨some "1", "A", some "10", "x"⟩] (by decide)
